import Mathlib

/-!
Verification of the proslenkey launcher (`src/__main__.py`): the PATH command
index, the subsequence matcher, the suggestion engine and the keyboard/pointer
routing handlers, shallowly embedded as pure Lean functions over explicit
application state.
-/

namespace Proslenkey

/-! ### SubsequenceMatcher (`subseqmatch`) -/

/-- Model of Python `full.find(c, start)`: the index of the first occurrence of
character `c` in `full` at position `≥ start`, or `none` where Python
returns `-1`. -/
def strFind : List Char → Char → Nat → Option Nat
  | [], _, _ => none
  | d :: ds, c, 0 => if d = c then some 0 else (strFind ds c 0).map (· + 1)
  | _ :: ds, c, s + 1 => (strFind ds c s).map (· + 1)

/-- The loop of `subseqmatch`: Python keeps `pos` (starting at `-1`) and steps
`pos = full.find(c, pos + 1)` for each `c` of `sub`, failing when `find`
returns `-1`.  Here `start` carries `pos + 1`. -/
def subseqmatchGo (full : List Char) : List Char → Nat → Bool
  | [], _ => true
  | c :: cs, start =>
    match strFind full c start with
    | none => false
    | some p => subseqmatchGo full cs (p + 1)

/-- Model of `subseqmatch(sub, full)`: `if not sub: return False`, then the
greedy find loop over the characters of `sub`. -/
def subseqmatch (sub full : String) : Bool :=
  if sub.data = [] then false else subseqmatchGo full.data sub.data 0

/-- Reference greedy matcher on suffixes, used to relate the index-based loop
to `List.Sublist`. -/
def greedy : List Char → List Char → Bool
  | [], _ => true
  | _ :: _, [] => false
  | c :: cs, d :: ds => if c = d then greedy cs ds else greedy (c :: cs) ds

/-! ### CommandIndex (`get_path_commands`) -/

/-- A directory entry as `p.iterdir()` yields it: its base name `f.name`,
whether `f.is_file()`, and whether `os.access(f, os.X_OK)`. -/
structure DirEntry where
  name : String
  isFile : Bool
  isExec : Bool
deriving DecidableEq, Repr

/-- One component of the PATH environment variable, as the code probes it:
`p.is_dir()`, whether enumerating it with `p.iterdir()` succeeds
(`readable`; when false Python raises `PermissionError`), and its entries. -/
structure PathDir where
  isDir : Bool
  readable : Bool
  entries : List DirEntry
deriving DecidableEq, Repr

/-- One iteration of the loop body of `get_path_commands`: skip `p` when it is
not a directory (`if not p or not p.is_dir(): continue`; `not p` is always
false on a `Path`), fail when `p.iterdir()` raises, otherwise add the name of
every executable regular file to the accumulated collection. -/
def scanDir (acc : List String) (d : PathDir) : Except Unit (List String) :=
  if !d.isDir then .ok acc
  else if !d.readable then .error ()
  else .ok (acc ++ (d.entries.filter (fun e => e.isFile && e.isExec)).map (fun e => e.name))

/-- The full scanning loop of `get_path_commands` over the PATH components in
order; an unhandled exception from any component aborts the whole loop. The
Python `set` is modelled as the accumulated list of names up to duplicates
(deduplicated below before sorting). -/
def collectNames : List PathDir → List String → Except Unit (List String)
  | [], acc => .ok acc
  | d :: ds, acc =>
    match scanDir acc d with
    | .error e => .error e
    | .ok acc2 => collectNames ds acc2

/-- The sort key of `sorted(commands, key=lambda c: (len(c), c))`: Python
compares the tuples `(len(c), c)` lexicographically. -/
def keyLE (a b : String) : Prop :=
  a.length < b.length ∨ (a.length = b.length ∧ a ≤ b)

instance : DecidableRel keyLE := fun a b => by
  unfold keyLE; infer_instance

instance : IsTotal String keyLE where
  total a b := by
    unfold keyLE
    rcases Nat.lt_trichotomy a.length b.length with h | h | h
    · exact Or.inl (Or.inl h)
    · rcases le_total a b with h2 | h2
      · exact Or.inl (Or.inr ⟨h, h2⟩)
      · exact Or.inr (Or.inr ⟨h.symm, h2⟩)
    · exact Or.inr (Or.inl h)

instance : IsTrans String keyLE where
  trans a b c hab hbc := by
    unfold keyLE at *
    rcases hab with h1 | ⟨h1, h1'⟩ <;> rcases hbc with h2 | ⟨h2, h2'⟩
    · exact Or.inl (h1.trans h2)
    · exact Or.inl (h2 ▸ h1)
    · exact Or.inl (h1 ▸ h2)
    · exact Or.inr ⟨h1.trans h2, le_trans h1' h2'⟩

instance : IsAntisymm String keyLE where
  antisymm a b hab hba := by
    rcases hab with h1 | ⟨h1, h1'⟩ <;> rcases hba with h2 | ⟨h2, h2'⟩
    · exact absurd (h1.trans h2) (lt_irrefl _)
    · exact absurd h1 (h2 ▸ lt_irrefl _)
    · exact absurd h2 (h1 ▸ lt_irrefl _)
    · exact le_antisymm h1' h2'

/-- Model of `get_path_commands()`: scan all PATH components collecting
executable file names into a set, then return
`sorted(commands, key=lambda c: (len(c), c))`.  A `PermissionError` raised by
`p.iterdir()` propagates (there is no handler in the source), modelled by the
`Except` error. -/
def get_path_commands (searchPath : List PathDir) : Except Unit (List String) :=
  (collectNames searchPath []).map
    (fun names => List.insertionSort keyLE names.dedup)

/-- Whether a computation modelling a Python call finished without raising. -/
def exceptOk {ε α : Type} : Except ε α → Bool
  | .ok _ => true
  | .error _ => false

/-- A search path with a readable directory holding two executables (one
listed twice) and a non-executable file. -/
def sampleSearchPath : List PathDir :=
  [⟨true, true, [⟨"ls", true, true⟩, ⟨"cat", true, true⟩, ⟨"ls", true, true⟩,
    ⟨"README", true, false⟩]⟩]

/-! ### `shlex.quote` and `str.strip` -/

/-- A single-quote character. -/
def squote : Char := Char.ofNat 39

/-- A double-quote character. -/
def dquote : Char := Char.ofNat 34

/-- The characters `shlex.quote` leaves unquoted: `_find_unsafe` treats
everything outside ASCII `\w` and the punctuation at-sign, percent, plus,
equals, colon, comma, dot, slash, dash as unsafe (the pattern runs under
`re.ASCII`). -/
def shlexSafe (c : Char) : Bool :=
  c.isLower || c.isUpper || c.isDigit ||
    ['_', '@', '%', '+', '=', ':', ',', '.', '/', '-'].contains c

/-- The replacement `s.replace("'", ...)` performed by `shlex.quote`: each
single quote becomes quote, double-quoted quote, quote. -/
def shlexEscape (c : Char) : List Char :=
  if c = squote then [squote, dquote, squote, dquote, squote] else [c]

/-- Model of `shlex.quote(s)`: the empty string becomes two single quotes, a
string of safe characters is returned unchanged, and anything else is wrapped
in single quotes with embedded single quotes escaped. -/
def shlexQuote (s : String) : String :=
  if s.data = [] then String.mk [squote, squote]
  else if s.data.all shlexSafe then s
  else String.mk (squote :: s.data.flatMap shlexEscape ++ [squote])

/-- The whitespace removed by Python `str.strip()`, i.e. the characters with
`str.isspace()` true: tab through carriage return, the file/group/record/unit
separators U+001C..U+001F, space, next-line U+0085, no-break space U+00A0,
Ogham space mark U+1680, the U+2000..U+200A space range, the line and
paragraph separators U+2028/U+2029, narrow no-break space U+202F, medium
mathematical space U+205F, and ideographic space U+3000. -/
def pyWhitespace (c : Char) : Bool :=
  (0x09 ≤ c.toNat && c.toNat ≤ 0x0d) ||
  (0x1c ≤ c.toNat && c.toNat ≤ 0x20) ||
  c.toNat == 0x85 || c.toNat == 0xa0 || c.toNat == 0x1680 ||
  (0x2000 ≤ c.toNat && c.toNat ≤ 0x200a) ||
  c.toNat == 0x2028 || c.toNat == 0x2029 || c.toNat == 0x202f ||
  c.toNat == 0x205f || c.toNat == 0x3000

/-- Model of `str.strip()`: drop leading and trailing whitespace. -/
def pyStrip (s : String) : String :=
  String.mk (((s.data.dropWhile pyWhitespace).reverse.dropWhile pyWhitespace).reverse)

/-! ### Application state and widget primitives -/

/-- The GDK key symbols the handlers distinguish.  `printable c` stands for
any other keyval whose `Gdk.keyval_to_unicode` translation is the codepoint of
`c`; `nonPrintable` for any other keyval translating to 0. -/
inductive Key where
  | tab
  | kpTab
  | isoLeftTab
  | escape
  | ret
  | shiftL
  | shiftR
  | controlL
  | controlR
  | space
  | backspace
  | printable (c : Char)
  | nonPrintable
deriving DecidableEq, Repr

/-- The tuple of keyvals `on_scroller_key_pressed` leaves to GTK: Tab,
KP_Tab, ISO_Left_Tab, Escape, Return, Shift_L, Shift_R, Control_L,
Control_R. -/
def exemptKey : Key → Bool
  | .tab | .kpTab | .isoLeftTab | .escape | .ret
  | .shiftL | .shiftR | .controlL | .controlR => true
  | _ => false

/-- Model of `Gdk.keyval_to_unicode` on the keys above: GDK translates Tab,
Return, Escape and BackSpace to their control codepoints, keys without a
Unicode equivalent (shifts, controls, ISO_Left_Tab and every `nonPrintable`
keyval) to 0, and printable keyvals to their character. -/
def keyval_to_unicode : Key → Nat
  | .tab | .kpTab => 9
  | .escape => 27
  | .ret => 13
  | .backspace => 8
  | .space => 32
  | .printable c => c.toNat
  | _ => 0

/-- The GDK modifier word of a key or pointer event: bit 0 is Shift, bit 1 is
Lock, bit 2 is Control (`Gdk.ModifierType.CONTROL_MASK = 4`). -/
def CONTROL_MASK : Nat := 4

/-- The launcher state the handlers act on: entry text, the suggestion
surface (scroller visibility, entry `hexpand`, button labels), keyboard
focus, the lines handed to `subprocess.Popen(..., shell=True)` so far, and
whether `self.quit()` has been called. -/
structure AppState where
  entryText : String
  scrollerVisible : Bool
  entryHexpand : Bool
  buttons : List String
  focusOnEntry : Bool
  launched : List String
  quitRequested : Bool
deriving DecidableEq, Repr

/-- The launcher's initial state: empty entry, suggestion surface hidden,
entry expanded and focused, nothing launched, not terminating. -/
def initState : AppState :=
  { entryText := "", scrollerVisible := false, entryHexpand := true,
    buttons := [], focusOnEntry := true, launched := [], quitRequested := false }

/-- Model of `refresh_suggestions(text)`: empty the suggestion box, filter
`self.commands` through `subseqmatch`, hide the scroller and let the entry
expand when nothing matches, otherwise show the scroller, withdraw the
entry's expansion and create one button per command in `matches[:20]`. -/
def refresh_suggestions (commands : List String) (text : String)
    (st : AppState) : AppState :=
  let matchList := commands.filter (fun command => subseqmatch text command)
  if matchList = [] then
    { st with buttons := [], scrollerVisible := false, entryHexpand := true }
  else
    { st with buttons := matchList.take 20, scrollerVisible := true,
              entryHexpand := false }

/-- Model of `self.entry.set_text(t)` together with the connected `changed`
handler `on_entry_changed`, which reruns `refresh_suggestions` on the new
text. -/
def set_text (commands : List String) (st : AppState) (t : String) : AppState :=
  refresh_suggestions commands t { st with entryText := t }

/-- Model of `append_char(char)`: set the entry text to `text + char`, or to
`text[:-1]` when `char` is backspace. -/
def append_char (commands : List String) (st : AppState) (char : String) :
    AppState :=
  set_text commands st
    (if char ≠ "\x08" then st.entryText ++ char else st.entryText.dropRight 1)

/-- Model of `focus_entry`: `grab_focus()` moves keyboard focus to the entry
(`set_position(-1)` only places the cursor and is not modelled). -/
def focus_entry (st : AppState) : AppState := { st with focusOnEntry := true }

/-- Model of `set_cmd(cmd)`: set the entry text to `shlex.quote(cmd)`. -/
def set_cmd (commands : List String) (st : AppState) (cmd : String) : AppState :=
  set_text commands st (shlexQuote cmd)

/-- Model of `exec_one(cmd)`:
`subprocess.Popen(shlex.quote(cmd), shell=True)`, recorded as a launched
line; `Popen` does not block and its outcome is never observed. -/
def exec_one (st : AppState) (cmd : String) : AppState :=
  { st with launched := st.launched ++ [shlexQuote cmd] }

/-- Model of `Gtk.Application.quit()`: request termination. -/
def quit (st : AppState) : AppState := { st with quitRequested := true }

/-! ### Handlers -/

/-- Model of `on_activate_entry`: strip the entry text; an empty result is a
no-op, otherwise `subprocess.Popen(cmdline, shell=True)` on the stripped line
followed by `self.quit()`. -/
def on_activate_entry (st : AppState) : AppState :=
  let cmdline := pyStrip st.entryText
  if cmdline = "" then st
  else quit { st with launched := st.launched ++ [cmdline] }

/-- Model of the global `on_key_pressed` handler on the root box: Escape
quits and consumes the event, everything else is left unhandled. -/
def on_key_pressed (k : Key) (st : AppState) : Bool × AppState :=
  if k = .escape then (true, quit st) else (false, st)

/-- Model of `on_scroller_key_pressed`: the exempt keyvals are left to GTK;
any other key is translated with `Gdk.keyval_to_unicode` (codepoint 0 giving
the empty string), appended to the entry text, and focus returns to the
entry. -/
def on_scroller_key_pressed (commands : List String) (k : Key)
    (st : AppState) : Bool × AppState :=
  if exemptKey k then (false, st)
  else
    let codepoint := keyval_to_unicode k
    let char := if codepoint ≠ 0 then String.mk [Char.ofNat codepoint] else ""
    (true, focus_entry (append_char commands st char))

/-- Model of `on_btn_key_pressed` for the focused button labelled `cmd`:
space is appended to the entry (preventing button activation), Return picks
the suggestion when the modifier word equals `CONTROL_MASK` exactly and
executes it otherwise, and every other key is left unhandled. -/
def on_btn_key_pressed (commands : List String) (cmd : String) (k : Key)
    (state : Nat) (st : AppState) : Bool × AppState :=
  if k = .space then (true, focus_entry (append_char commands st " "))
  else if k = .ret then
    if state = CONTROL_MASK then (true, focus_entry (set_cmd commands st cmd))
    else (true, quit (exec_one st cmd))
  else (false, st)

/-- Model of `on_btn_clicked` (click gesture on the button labelled `cmd`):
pick the suggestion when the modifier word equals `CONTROL_MASK` exactly,
execute it otherwise. -/
def on_btn_clicked (commands : List String) (cmd : String) (state : Nat)
    (st : AppState) : AppState :=
  if state = CONTROL_MASK then focus_entry (set_cmd commands st cmd)
  else quit (exec_one st cmd)

/-- GTK4 bubble-phase key dispatch while a suggestion button is focused: the
button's controller runs first, then the scrolled window's, then the global
one on the root box; a handler returning `True` stops propagation. -/
def dispatchKeyBrowsing (commands : List String) (cmd : String) (k : Key)
    (state : Nat) (st : AppState) : AppState :=
  let r1 := on_btn_key_pressed commands cmd k state st
  if r1.1 then r1.2
  else
    let r2 := on_scroller_key_pressed commands k r1.2
    if r2.1 then r2.2
    else (on_key_pressed k r2.2).2

/-- Key dispatch while the entry is focused: only the global handler on the
root box takes part. -/
def dispatchKeyEditing (k : Key) (st : AppState) : AppState :=
  (on_key_pressed k st).2

/-! ### Helper lemmas and claim theorems -/

theorem strFind_drop (c : Char) :
    ∀ (s : Nat) (full : List Char),
      strFind full c s = (strFind (full.drop s) c 0).map (· + s) := by
  intro s
  induction s with
  | zero =>
    intro full
    simp only [List.drop_zero]
    cases strFind full c 0 <;> simp
  | succ n ih =>
    intro full
    cases full with
    | nil => simp [strFind]
    | cons d ds =>
      show (strFind ds c n).map (· + 1) = _
      rw [ih ds]
      simp only [List.drop_succ_cons]
      cases strFind (ds.drop n) c 0 with
      | none => simp
      | some p => simp; omega

theorem strFind_eq_none_iff (c : Char) :
    ∀ full : List Char, strFind full c 0 = none ↔ c ∉ full := by
  intro full
  induction full with
  | nil => simp [strFind]
  | cons d ds ih =>
    by_cases hd : d = c
    · subst hd
      simp [strFind]
    · simp only [strFind, if_neg hd, List.mem_cons]
      cases h : strFind ds c 0 <;>
        simp_all [eq_comm (a := d) (b := c)]

theorem greedy_eq_false_of_not_mem {c : Char} {cs : List Char} :
    ∀ ds : List Char, c ∉ ds → greedy (c :: cs) ds = false := by
  intro ds
  induction ds with
  | nil => intro _; rfl
  | cons d ds ih =>
    intro h
    have hcd : ¬ c = d := fun e => h (e ▸ List.mem_cons_self d ds)
    have hds : c ∉ ds := fun m => h (List.mem_cons_of_mem d m)
    simp [greedy, hcd, ih hds]

theorem greedy_skip {c : Char} (cs : List Char) :
    ∀ (ds : List Char) (r : Nat), strFind ds c 0 = some r →
      greedy (c :: cs) ds = greedy cs (ds.drop (r + 1)) := by
  intro ds
  induction ds with
  | nil => intro r h; simp [strFind] at h
  | cons d ds ih =>
    intro r h
    by_cases hd : d = c
    · have h0 : strFind (d :: ds) c 0 = some 0 := by simp [strFind, hd]
      rw [h0] at h
      injection h with h
      subst h
      simp [greedy, hd]
    · simp only [strFind, if_neg hd] at h
      cases h0 : strFind ds c 0 with
      | none => simp [h0] at h
      | some r0 =>
        rw [h0] at h
        simp only [Option.map_some', Option.some.injEq] at h
        have hcd : ¬ c = d := fun e => hd e.symm
        have he : greedy (c :: cs) (d :: ds) = greedy (c :: cs) ds := by
          simp [greedy, hcd]
        rw [he, ih r0 h0, ← h]
        simp

theorem subseqmatchGo_eq_greedy (full : List Char) :
    ∀ (sub : List Char) (start : Nat),
      subseqmatchGo full sub start = greedy sub (full.drop start) := by
  intro sub
  induction sub with
  | nil =>
    intro start
    cases full.drop start <;> rfl
  | cons c cs ih =>
    intro start
    cases h : strFind (full.drop start) c 0 with
    | none =>
      have hf : strFind full c start = none := by
        rw [strFind_drop c start full, h]; rfl
      have hm : c ∉ full.drop start := (strFind_eq_none_iff c _).mp h
      rw [greedy_eq_false_of_not_mem _ hm]
      simp [subseqmatchGo, hf]
    | some r =>
      have hf : strFind full c start = some (r + start) := by
        rw [strFind_drop c start full, h]; rfl
      simp only [subseqmatchGo, hf]
      rw [ih (r + start + 1), greedy_skip cs _ r h, List.drop_drop]
      congr 2
      omega

theorem greedy_eq_true_iff_sublist :
    ∀ (ds cs : List Char), greedy cs ds = true ↔ List.Sublist cs ds := by
  intro ds
  induction ds with
  | nil =>
    intro cs
    cases cs with
    | nil => simp [greedy]
    | cons c cs => simp [greedy]
  | cons d ds ih =>
    intro cs
    cases cs with
    | nil => simp [greedy]
    | cons c cs =>
      by_cases hcd : c = d
      · subst hcd
        rw [greedy, if_pos rfl, List.cons_sublist_cons]
        exact ih cs
      · rw [greedy, if_neg hcd, ih (c :: cs)]
        constructor
        · intro h; exact h.cons d
        · intro h
          rcases List.sublist_cons_iff.mp h with h' | ⟨r, hr, _⟩
          · exact h'
          · injection hr with h1 h2
            exact absurd h1 hcd

/-- C1: `subseqmatch(q, c)` is true exactly when `q` is non-empty and the
characters of `q` occur in `c` in order at strictly increasing positions
(`List.Sublist`), with exact character equality; in particular
`subseqmatch("", c)` is false for every `c`. -/
theorem subseqmatch_iff (sub full : String) :
    subseqmatch sub full = true ↔
      sub.data ≠ [] ∧ List.Sublist sub.data full.data := by
  unfold subseqmatch
  by_cases h : sub.data = []
  · simp [h]
  · rw [if_neg h, subseqmatchGo_eq_greedy full.data sub.data 0, List.drop_zero,
      greedy_eq_true_iff_sublist]
    exact ⟨fun hs => ⟨h, hs⟩, fun ⟨_, hs⟩ => hs⟩

theorem collectNames_ok_iff :
    ∀ (sp : List PathDir) (acc : List String),
      exceptOk (collectNames sp acc) = true ↔
        ∀ d ∈ sp, d.isDir = true → d.readable = true := by
  intro sp
  induction sp with
  | nil => intro acc; simp [collectNames, exceptOk]
  | cons d ds ih =>
    intro acc
    by_cases hdir : d.isDir
    · by_cases hread : d.readable
      · have hscan : scanDir acc d =
            .ok (acc ++ (d.entries.filter (fun e => e.isFile && e.isExec)).map
              (fun e => e.name)) := by
          simp [scanDir, hdir, hread]
        rw [collectNames, hscan]
        simp only [List.mem_cons]
        rw [ih]
        constructor
        · intro h e he
          rcases he with rfl | he
          · intro _; exact hread
          · exact h e he
        · intro h e he; exact h e (Or.inr he)
      · have hscan : scanDir acc d = .error () := by
          simp [scanDir, hdir, hread]
        rw [collectNames, hscan]
        simp only [exceptOk]
        constructor
        · intro h; cases h
        · intro h
          have := h d (List.mem_cons_self d ds) hdir
          exact absurd this hread
    · have hscan : scanDir acc d = .ok acc := by simp [scanDir, hdir]
      rw [collectNames, hscan]
      simp only [List.mem_cons]
      rw [ih]
      constructor
      · intro h e he
        rcases he with rfl | he
        · intro hd; exact absurd hd hdir
        · exact h e he
      · intro h e he; exact h e (Or.inr he)


theorem subseqmatch_empty_query (full : String) : subseqmatch "" full = false := by
  simp [subseqmatch]

theorem exceptOk_map {ε α β : Type} (f : α → β) (e : Except ε α) :
    exceptOk (e.map f) = exceptOk e := by
  cases e <;> rfl

theorem refresh_entryText (commands : List String) (text : String)
    (st : AppState) :
    (refresh_suggestions commands text st).entryText = st.entryText := by
  by_cases h : commands.filter (fun command => subseqmatch text command) = [] <;>
    simp [refresh_suggestions, h]

theorem refresh_launched (commands : List String) (text : String)
    (st : AppState) :
    (refresh_suggestions commands text st).launched = st.launched := by
  by_cases h : commands.filter (fun command => subseqmatch text command) = [] <;>
    simp [refresh_suggestions, h]

theorem refresh_quitRequested (commands : List String) (text : String)
    (st : AppState) :
    (refresh_suggestions commands text st).quitRequested = st.quitRequested := by
  by_cases h : commands.filter (fun command => subseqmatch text command) = [] <;>
    simp [refresh_suggestions, h]

theorem refresh_focusOnEntry (commands : List String) (text : String)
    (st : AppState) :
    (refresh_suggestions commands text st).focusOnEntry = st.focusOnEntry := by
  by_cases h : commands.filter (fun command => subseqmatch text command) = [] <;>
    simp [refresh_suggestions, h]

/-- C3: whenever `get_path_commands` completes, the returned index has no
duplicate names, is sorted by name length and then lexicographically, and any
enumeration order of the underlying name set sorts to the same index. -/
theorem get_path_commands_index_spec (sp : List PathDir) (cmds : List String)
    (h : get_path_commands sp = .ok cmds) :
    cmds.Nodup ∧ List.Sorted keyLE cmds ∧
      ∀ enum : List String, enum.Perm cmds →
        List.insertionSort keyLE enum = cmds := by
  unfold get_path_commands at h
  cases hc : collectNames sp [] with
  | error e => rw [hc] at h; exact absurd h (by simp [Except.map])
  | ok names =>
    rw [hc] at h
    simp only [Except.map, Except.ok.injEq] at h
    subst h
    refine ⟨?_, List.sorted_insertionSort keyLE names.dedup, ?_⟩
    · exact (List.perm_insertionSort keyLE names.dedup).symm.nodup
        (List.nodup_dedup names)
    · intro enum hperm
      exact List.eq_of_perm_of_sorted
        ((List.perm_insertionSort keyLE enum).trans hperm)
        (List.sorted_insertionSort keyLE enum)
        (List.sorted_insertionSort keyLE names.dedup)

theorem get_path_commands_index_spec_witness :
    get_path_commands sampleSearchPath = .ok ["ls", "cat"] ∧
      (["ls", "cat"].Nodup ∧ List.Sorted keyLE ["ls", "cat"] ∧
        ∀ enum : List String, enum.Perm ["ls", "cat"] →
          List.insertionSort keyLE enum = ["ls", "cat"]) :=
  ⟨rfl, get_path_commands_index_spec sampleSearchPath ["ls", "cat"] rfl⟩

/-- C4 counterexample: a search path holding a single unreadable directory
makes `get_path_commands` abort with the `PermissionError` from
`p.iterdir()` instead of skipping it — index construction does not survive an
unreadable directory. -/
theorem get_path_commands_error_on_unreadable :
    get_path_commands [⟨true, false, []⟩] = .error () := rfl

/-- C4 (amended): index construction completes exactly when every search-path
component that is a directory can be enumerated; an unreadable directory is
not skipped — the error propagates and aborts the build. -/
theorem get_path_commands_ok_iff (sp : List PathDir) :
    exceptOk (get_path_commands sp) = true ↔
      ∀ d ∈ sp, d.isDir = true → d.readable = true := by
  unfold get_path_commands
  rw [exceptOk_map]
  exact collectNames_ok_iff sp []

/-- C2: the suggestion list produced by `refresh_suggestions` is exactly the
matcher-filtered index truncated to its first 20 entries, hence has at most
20 elements and is an order-preserving subsequence of the index (nothing is
re-sorted or re-ranked). -/
theorem refresh_suggestions_matchlist (commands : List String) (text : String)
    (st : AppState) :
    (refresh_suggestions commands text st).buttons =
        (commands.filter (fun c => subseqmatch text c)).take 20 ∧
      (refresh_suggestions commands text st).buttons.length ≤ 20 ∧
      List.Sublist (refresh_suggestions commands text st).buttons
        (commands.filter (fun c => subseqmatch text c)) ∧
      List.Sublist (refresh_suggestions commands text st).buttons commands := by
  unfold refresh_suggestions
  by_cases h : commands.filter (fun c => subseqmatch text c) = []
  · simp [h]
  · simp only [h, if_neg h]
    refine ⟨rfl, List.length_take_le 20 _, List.take_sublist 20 _, ?_⟩
    exact (List.take_sublist 20 _).trans (List.filter_sublist _)

/-- C5: after every recomputation the suggestion surface is visible iff the
produced list is non-empty, the entry's horizontal-expand flag is the
negation of that visibility, and the empty query always yields an empty,
hidden list. -/
theorem refresh_suggestions_visibility (commands : List String) (text : String)
    (st : AppState) :
    ((refresh_suggestions commands text st).scrollerVisible = true ↔
        (refresh_suggestions commands text st).buttons ≠ []) ∧
      (refresh_suggestions commands text st).entryHexpand =
        !(refresh_suggestions commands text st).scrollerVisible ∧
      (refresh_suggestions commands "" st).buttons = [] ∧
      (refresh_suggestions commands "" st).scrollerVisible = false := by
  refine ⟨?_, ?_, ?_, ?_⟩ <;>
    unfold refresh_suggestions <;>
    by_cases h : commands.filter (fun c => subseqmatch text c) = [] <;>
    simp [h, subseqmatch_empty_query, List.take_eq_nil_iff]

/-- C6 counterexample: with the suggestion `ls` focused and the modifier word
`5` (Control together with Shift), the Control modifier is held, yet Return
launches the command and requests termination instead of copying the quoted
name into the entry — the handler tests `state == CONTROL_MASK` exactly. -/
theorem ctrl_shift_return_executes :
    Nat.testBit 5 2 = true ∧
      (on_btn_key_pressed ["ls"] "ls" Key.ret 5 initState).2.launched = ["ls"] ∧
      (on_btn_key_pressed ["ls"] "ls" Key.ret 5 initState).2.quitRequested = true := by
  refine ⟨by decide, rfl, rfl⟩

/-- C6 (amended): when the modifier word is exactly `CONTROL_MASK` (Control
and no other modifier), Return on a focused suggestion — and likewise a
pointer press — consumes the event, sets the entry text to the shell-quoted
command name, moves focus to the entry, launches nothing and leaves the
termination flag unchanged. -/
theorem ctrl_return_picks (commands : List String) (cmd : String)
    (st : AppState) :
    (on_btn_key_pressed commands cmd Key.ret CONTROL_MASK st).1 = true ∧
      (on_btn_key_pressed commands cmd Key.ret CONTROL_MASK st).2.entryText =
        shlexQuote cmd ∧
      (on_btn_key_pressed commands cmd Key.ret CONTROL_MASK st).2.focusOnEntry =
        true ∧
      (on_btn_key_pressed commands cmd Key.ret CONTROL_MASK st).2.launched =
        st.launched ∧
      (on_btn_key_pressed commands cmd Key.ret CONTROL_MASK st).2.quitRequested =
        st.quitRequested ∧
      on_btn_clicked commands cmd CONTROL_MASK st =
        (on_btn_key_pressed commands cmd Key.ret CONTROL_MASK st).2 := by
  unfold on_btn_key_pressed on_btn_clicked
  simp [focus_entry, set_cmd, set_text, refresh_entryText, refresh_launched,
    refresh_quitRequested]

/-- C7: when the Control bit of the modifier word is clear, Return on a
focused suggestion — and likewise a pointer press — consumes the event, hands
exactly the shell-quoted command name to the shell as one launched line, and
requests termination at once. -/
theorem plain_return_executes (commands : List String) (cmd : String)
    (state : Nat) (st : AppState) (h : state.testBit 2 = false) :
    (on_btn_key_pressed commands cmd Key.ret state st).1 = true ∧
      (on_btn_key_pressed commands cmd Key.ret state st).2.launched =
        st.launched ++ [shlexQuote cmd] ∧
      (on_btn_key_pressed commands cmd Key.ret state st).2.quitRequested = true ∧
      on_btn_clicked commands cmd state st =
        (on_btn_key_pressed commands cmd Key.ret state st).2 := by
  have hne : state ≠ CONTROL_MASK := by
    intro e
    rw [e] at h
    exact absurd h (by decide)
  unfold on_btn_key_pressed on_btn_clicked
  simp [hne, quit, exec_one]

theorem plain_return_executes_witness :
    Nat.testBit 0 2 = false ∧
      ((on_btn_key_pressed ["ls"] "ls" Key.ret 0 initState).1 = true ∧
        (on_btn_key_pressed ["ls"] "ls" Key.ret 0 initState).2.launched =
          initState.launched ++ [shlexQuote "ls"] ∧
        (on_btn_key_pressed ["ls"] "ls" Key.ret 0 initState).2.quitRequested =
          true ∧
        on_btn_clicked ["ls"] "ls" 0 initState =
          (on_btn_key_pressed ["ls"] "ls" Key.ret 0 initState).2) :=
  ⟨by decide, plain_return_executes ["ls"] "ls" 0 initState (by decide)⟩

/-- C8: activating the entry dispatches the stripped entry text as one full
shell-interpreted line and requests termination when the stripped text is
non-empty, and changes nothing at all when the text strips to empty. -/
theorem on_activate_entry_spec (st : AppState) :
    on_activate_entry st =
      if pyStrip st.entryText = "" then st
      else { st with launched := st.launched ++ [pyStrip st.entryText],
                     quitRequested := true } := by
  unfold on_activate_entry quit
  by_cases h : pyStrip st.entryText = "" <;> simp [h]

/-- C9: Escape requests termination from every focus state — directly through
the global handler while the entry is focused, and by bubbling unconsumed
through the button and scroller handlers while a suggestion is focused; the
scroller handler never consumes Escape. -/
theorem escape_terminates (commands : List String) (cmd : String)
    (state : Nat) (st : AppState) :
    (dispatchKeyEditing Key.escape st).quitRequested = true ∧
      (dispatchKeyBrowsing commands cmd Key.escape state st).quitRequested =
        true ∧
      on_scroller_key_pressed commands Key.escape st = (false, st) := by
  refine ⟨rfl, ?_, rfl⟩
  simp [dispatchKeyBrowsing, on_btn_key_pressed, on_scroller_key_pressed,
    exemptKey, on_key_pressed, quit]

/-- C10: while a suggestion is focused, a non-exempt key with no Unicode
translation is still consumed — the entry text is unchanged but focus moves
back to the entry; and `append_char` is total: backspace on an already empty
entry leaves it empty. -/
theorem nonprintable_key_refocuses (commands : List String) (st : AppState) :
    (on_scroller_key_pressed commands Key.nonPrintable st).1 = true ∧
      (on_scroller_key_pressed commands Key.nonPrintable st).2.entryText =
        st.entryText ∧
      (on_scroller_key_pressed commands Key.nonPrintable st).2.focusOnEntry =
        true ∧
      (append_char commands { st with entryText := "" } "\x08").entryText =
        "" := by
  refine ⟨rfl, ?_, ?_, ?_⟩
  · simp [on_scroller_key_pressed, exemptKey, keyval_to_unicode, append_char,
      set_text, refresh_entryText, focus_entry]
  · simp [on_scroller_key_pressed, exemptKey, keyval_to_unicode, append_char,
      set_text, refresh_focusOnEntry, focus_entry]
  · simp [append_char, set_text, refresh_entryText]
    decide

end Proslenkey
